import Mathlib

/-!
Verification development for the Medium blog migrator.

The JavaScript source (src/migrator/index.js) is embedded shallowly: each
regular expression of the migrator is modelled by a dedicated scanner that
follows the exec/replace semantics of that particular expression (leftmost
match, greedy quantifiers with the backtracking the pattern actually needs,
scanning resumes after the end of a match, advance by one character on a
failed attempt).  JavaScript strings that may be `undefined` are modelled as
`Option String`; a thrown exception is modelled by a `none` result.  File
system and network effects of the orchestrator are modelled by explicit
state passing and an event trace.
-/

namespace Migrator

/-- The opening-brace character, named so brace text never appears inside string literals. -/
def lbrace : Char := Char.ofNat 123

/-- The closing-brace character. -/
def rbrace : Char := Char.ofNat 125

/-- The single-quote character. -/
def squote : Char := Char.ofNat 39

/-- The backtick character. -/
def btick : Char := Char.ofNat 96

/-- Match a literal character sequence at the head of the input and return the remaining input on success. Models a literal run in one of the migrator's regular expressions. -/
def litMatch : List Char → List Char → Option (List Char)
  | [], r => some r
  | _ :: _, [] => none
  | p :: ps, d :: r => if p = d then litMatch ps r else none

/-- Skip one optional space, as an optional-space regex fragment does when the literal that follows it can never match a space (so no backtracking is needed). -/
def skipOneSpace : List Char → List Char
  | ' ' :: r => r
  | r => r

/-- First index at which `pat` occurs as a contiguous run inside `l`, scanning left to right; models JavaScript String.prototype.indexOf. -/
def firstIdx : List Char → List Char → Option Nat
  | [], pat => if (litMatch pat []).isSome then some 0 else none
  | c :: cs, pat =>
    if (litMatch pat (c :: cs)).isSome then some 0
    else (firstIdx cs pat).map (· + 1)

/-- JavaScript String.prototype.replace with a plain string pattern: only the first occurrence is replaced and the input is returned unchanged when the pattern does not occur (src/migrator/index.js lines 219 and 347). Dollar substitution patterns never arise here: the migrator only splices upload URLs. -/
def replaceFirst (s pat rep : String) : String :=
  match firstIdx s.data pat.data with
  | none => s
  | some i => String.mk (s.data.take i ++ rep.data ++ s.data.drop (i + pat.data.length))

/-- JavaScript `a || b` over possibly-undefined regex capture groups: an empty string is falsy and falls through to the second group, exactly as in getMatches (src/migrator/index.js line 107). -/
def jsOr : Option String → Option String → Option String
  | some s, b => if s = "" then b else some s
  | none, b => b

/-- Attempt the markdown image regex (src/migrator/index.js line 10) at the head of the input. The two negated character classes are greedy but need no backtracking because the character that must follow each is excluded from the class. On success returns the first capture group and the input after the whole match. -/
def mdTry (l : List Char) : Option (String × List Char) :=
  match l with
  | '!' :: '[' :: r1 =>
    (match litMatch [']', '('] (r1.drop (r1.takeWhile (fun c => c ≠ ']')).length) with
     | some r3 =>
       let cap := r3.takeWhile (fun c => c ≠ ')')
       (match r3.drop cap.length with
        | ')' :: r5 => some (String.mk cap, r5)
        | _ => none)
     | none => none)
  | _ => none

/-- Global exec loop of getMatches (src/migrator/index.js lines 100-110) instantiated at the markdown image regex: try the pattern at every position, jump past a match, push the first-or-second capture group under JavaScript truthiness (`none` is the pushed `undefined`). Fuel is the input length; a match always consumes at least one character so the fuel suffices, and the zero-width-match guard of getMatches never fires for this pattern. -/
def mdScan : Nat → List Char → List (Option String)
  | 0, _ => []
  | _ + 1, [] => []
  | fuel + 1, c :: cs =>
    match mdTry (c :: cs) with
    | some (cap, rest) => jsOr (some cap) none :: mdScan fuel rest
    | none => mdScan fuel cs

/-- Attempt the quoted-source tail of the HTML img regex (src/migrator/index.js line 11): the literal src= followed by a double-quoted (first capture group) or single-quoted (second capture group) value, alternatives tried in that order. The quoted value may span newlines since the negated classes do not exclude them. -/
def srcQuoted (l : List Char) : Option (Option String × Option String × List Char) :=
  match l with
  | 's' :: 'r' :: 'c' :: '=' :: rest =>
    (match rest with
     | '"' :: r2 =>
       let v := r2.takeWhile (fun c => c ≠ '"')
       (match r2.drop v.length with
        | '"' :: r3 => some (some (String.mk v), none, r3)
        | _ => none)
     | q :: r2 =>
       if q = squote then
         let v := r2.takeWhile (fun c => c ≠ squote)
         (match r2.drop v.length with
          | c :: r3 => if c = squote then some (none, some (String.mk v), r3) else none
          | _ => none)
       else none
     | [] => none)
  | _ => none

/-- Backtracking search for the greedy any-character gap of the HTML img regex: the gap cannot cross a newline, so the rightmost admissible offset is tried first and the search retreats one character at a time. -/
def htmlFindSrc (r : List Char) : Nat → Option (Option String × Option String × List Char)
  | 0 => srcQuoted r
  | k + 1 =>
    match srcQuoted (r.drop (k + 1)) with
    | some res => some res
    | none => htmlFindSrc r k

/-- Attempt the HTML img regex at the head of the input: the literal opener, then the greedy newline-free gap, then the quoted source. Returns the pushed capture value and the input after the match. -/
def htmlTry (l : List Char) : Option (Option String × List Char) :=
  match l with
  | '<' :: 'i' :: 'm' :: 'g' :: r =>
    (match htmlFindSrc r ((r.takeWhile (fun c => c ≠ '\n')).length) with
     | some (g1, g2, rest) => some (jsOr g1 g2, rest)
     | none => none)
  | _ => none

/-- Global exec loop of getMatches instantiated at the HTML img regex; fuel as in `mdScan`. -/
def htmlScan : Nat → List Char → List (Option String)
  | 0, _ => []
  | _ + 1, [] => []
  | fuel + 1, c :: cs =>
    match htmlTry (c :: cs) with
    | some (cap, rest) => cap :: htmlScan fuel rest
    | none => htmlScan fuel cs

/-- All getMatches results for the markdown image regex over a content string. -/
def getMatchesMd (s : String) : List (Option String) := mdScan s.data.length s.data

/-- All getMatches results for the HTML img regex over a content string. -/
def getMatchesHtml (s : String) : List (Option String) := htmlScan s.data.length s.data

/-- extractImageUrls (src/migrator/index.js lines 119-122): the markdown-image matches concatenated with the HTML img matches. -/
def extractImageUrls (content : String) : List (Option String) :=
  getMatchesMd content ++ getMatchesHtml content

/-- Characters admitted by the protocol pattern of Node's legacy url parser. -/
def isProtoChar (c : Char) : Bool :=
  ('a' ≤ c && c ≤ 'z') || ('A' ≤ c && c ≤ 'Z') || c.isDigit || c = '.' || c = '+' || c = '-'

/-- The suffix of a list after its last at-sign; the whole list when there is none. Models the userinfo split of the url parser. -/
def afterLastAt (l : List Char) : List Char :=
  (l.reverse.takeWhile (fun c => c ≠ '@')).reverse

/-- Hostname extraction of Node's legacy url.parse (slashesDenoteHost left false), modelled for the URL shapes the migrator handles: a hostname exists only when an explicit scheme is followed by two slashes; it is then the authority up to the first slash, question mark or hash, after any userinfo, with any port removed and lower-cased. Strings without such a scheme prefix (bare relative and site-absolute paths, including protocol-relative ones) parse with a null hostname. -/
def urlHostname (s : String) : Option String :=
  let cs := s.data
  let proto := cs.takeWhile isProtoChar
  if proto.length = 0 then none
  else
    match cs.drop proto.length with
    | ':' :: '/' :: '/' :: afterSlashes =>
      let auth := afterSlashes.takeWhile (fun c => c ≠ '/' && c ≠ '?' && c ≠ '#')
      some (String.mk (((afterLastAt auth).takeWhile (fun c => c ≠ ':')).map Char.toLower))
    | _ => none

/-- JavaScript truthiness test used on the parsed hostname: null/undefined and the empty string are falsy. -/
def hostFalsy : Option String → Bool
  | none => true
  | some h => h = ""

/-- filterUploadableImages (src/migrator/index.js lines 132-137). The elements are possibly-undefined strings exactly as getMatches produced them; url.parse throws a TypeError on a non-string argument, which is modelled by a `none` overall result. Otherwise keeps, in order, exactly the references whose parsed hostname is falsy or equals the site domain. -/
def filterUploadableImages : List (Option String) → Option (List String)
  | [] => some []
  | none :: _ => none
  | some i :: rest =>
    let keep := hostFalsy (urlHostname i) || urlHostname i == some "developmentseed.org"
    match filterUploadableImages rest with
    | none => none
    | some ks => some (if keep then i :: ks else ks)

/-- Node path.basename for posix paths: trailing slashes are stripped, then the last path component is taken. -/
def basename (s : String) : String :=
  let cs := s.data
  let trimmed := (cs.reverse.dropWhile (fun c => c = '/')).reverse
  if trimmed.isEmpty then (if cs.isEmpty then "" else "/")
  else String.mk ((trimmed.reverse.takeWhile (fun c => c ≠ '/')).reverse)

/-- The scheme-then-host tail of the site-prefix regex in uploadImage: the literal ://developmentseed, one any-character (the unescaped regex dot, which matches anything but a newline), then the literal org. -/
def tryHostTail (r : List Char) : Option (List Char) :=
  match litMatch (':' :: '/' :: '/' :: ("developmentseed".data)) r with
  | none => none
  | some r2 =>
    match r2 with
    | c :: r3 => if c = '\n' then none else litMatch ("org".data) r3
    | [] => none

/-- The leading strip inside uploadImage (src/migrator/index.js line 318): remove a ^https?://developmentseed.org prefix, the optional s tried greedily first. -/
def stripSiteHost (img : String) : String :=
  match litMatch ('h' :: 't' :: 't' :: 'p' :: []) img.data with
  | none => img
  | some r =>
    let tail1 := match r with
      | 's' :: r2 => (tryHostTail r2).orElse (fun _ => tryHostTail ('s' :: r2))
      | _ => tryHostTail r
    match tail1 with
    | some rest => String.mk rest
    | none => img

/-- The storage key uploadImage derives (src/migrator/index.js line 320). -/
def imgKey (img : String) : String := "images/" ++ basename (stripSiteHost img)

/-- uploadImage in dry-run mode (src/migrator/index.js lines 322-324): a deterministic placeholder URL derived from the storage key, with no I/O performed. -/
def uploadImageDry (img : String) : String := "http://localhost/test/" ++ imgKey img

/-- The public URL uploadImage returns after a live object-storage put (src/migrator/index.js line 333). -/
def uploadImageLive (bucket img : String) : String :=
  "https://s3.amazonaws.com/" ++ bucket ++ "/" ++ imgKey img

/-- A post as yaml-front-matter delivers it to main: the recognized front-matter fields and the body. `cardUrl` is media.card.url; `none` covers an absent or falsy value since the source only tests truthiness. `published` is `none` when the flag is absent. The date and permalink fields feed only the oracles below, since their handling depends on the JavaScript Date environment. -/
structure Post where
  author : Option String := none
  cardUrl : Option String := none
  published : Option Bool := none
  title : String := ""
  content : String := ""
deriving DecidableEq

/-- handlePostAuthors (src/migrator/index.js lines 234-239): prepend a byline when the front-matter author is truthy; the byline goes in front of whatever the content already starts with. -/
def handlePostAuthors (post : Post) (content : String) : String :=
  match post.author with
  | some a => if a = "" then content else "By: " ++ a ++ "\n\n" ++ content
  | none => content

/-- moveCardImageToContent (src/migrator/index.js lines 250-255): prepend the card image as a markdown image reference when media.card.url is truthy. -/
def moveCardImageToContent (post : Post) (content : String) : String :=
  match post.cardUrl with
  | some u => if u = "" then content else "![](" ++ u ++ ")\n\n" ++ content
  | none => content

/-- One global-replace pass of a regex modelled by the attempt function `att`: at each position try the pattern, emit the replacement and jump past a match, otherwise keep the character and advance by one. Fuel is the input length; every pattern used below consumes at least two characters per match, so the fuel suffices. -/
def scanReplace (att : List Char → Option (List Char)) (rep : List Char) :
    Nat → List Char → List Char
  | 0, l => l
  | _ + 1, [] => []
  | fuel + 1, c :: cs =>
    match att (c :: cs) with
    | some rest => rep ++ scanReplace att rep fuel rest
    | none => c :: scanReplace att rep fuel cs

/-- The character class of the liquid-class regex (lowercase letters, digits, hyphen, underscore). -/
def isLiquidChar (c : Char) : Bool :=
  ('a' ≤ c && c ≤ 'z') || c.isDigit || c = '-' || c = '_'

/-- Attempt the liquid-class regex (src/migrator/index.js line 268) at the head of the input: the literal open brace, colon and space, one any-character (the unescaped dot, anything but a newline), a nonempty greedy run of class characters, an optional space, and the closing brace. The greedy run needs no backtracking because neither a space nor the closing brace is in the class. -/
def liquidTry (l : List Char) : Option (List Char) :=
  match litMatch [lbrace, ':', ' '] l with
  | none => none
  | some r =>
    (match r with
     | c :: r2 =>
       if c = '\n' then none
       else
         let run := r2.takeWhile isLiquidChar
         if run.length = 0 then none
         else litMatch [rbrace] (skipOneSpace (r2.drop run.length))
     | [] => none)

/-- Attempt the site-base-url regex (src/migrator/index.js line 306) at the head of the input: two open braces, optional space, the literal site, one any-character (the unescaped dot), the literal baseurl, optional space, two close braces. -/
def siteUrlTry (l : List Char) : Option (List Char) :=
  match litMatch [lbrace, lbrace] l with
  | none => none
  | some r =>
    match litMatch ("site".data) (skipOneSpace r) with
    | none => none
    | some r2 =>
      (match r2 with
       | c :: r3 =>
         if c = '\n' then none
         else
           match litMatch ("baseurl".data) r3 with
           | none => none
           | some r4 => litMatch [rbrace, rbrace] (skipOneSpace r4)
       | [] => none)

/-- Find the rightmost close marker reachable by the greedy newline-free gap of the highlight regex, trying offsets from the end of the line downwards. -/
def findClose (r : List Char) : Nat → Option (List Char)
  | 0 => litMatch ['%', rbrace] r
  | k + 1 =>
    match litMatch ['%', rbrace] (r.drop (k + 1)) with
    | some rest => some rest
    | none => findClose r k

/-- Attempt the opening-highlight regex (src/migrator/index.js line 281) at the head of the input: open brace and percent, optional space, the literal highlight, then a greedy newline-free gap up to a percent-close-brace; the two optional spaces around the gap are absorbed by the gap itself. -/
def highlightTry (l : List Char) : Option (List Char) :=
  match litMatch [lbrace, '%'] l with
  | none => none
  | some r =>
    match litMatch ("highlight".data) (skipOneSpace r) with
    | none => none
    | some r2 => findClose r2 ((r2.takeWhile (fun c => c ≠ '\n')).length)

/-- Attempt the endhighlight regex (src/migrator/index.js line 282) at the head of the input. -/
def endHighlightTry (l : List Char) : Option (List Char) :=
  match litMatch [lbrace, '%'] l with
  | none => none
  | some r =>
    match litMatch ("endhighlight".data) (skipOneSpace r) with
    | none => none
    | some r2 => litMatch ['%', rbrace] (skipOneSpace r2)

/-- The triple-backtick fence both code-block replacements insert. -/
def fence : List Char := [btick, btick, btick]

/-- handleLiquidClasses (src/migrator/index.js lines 267-269). -/
def handleLiquidClasses (s : String) : String :=
  String.mk (scanReplace liquidTry [] s.data.length s.data)

/-- handleCodeBlocks (src/migrator/index.js lines 279-283): one global replace for the opening marker, then one for the closing marker. -/
def handleCodeBlocks (s : String) : String :=
  let pass1 := scanReplace highlightTry fence s.data.length s.data
  String.mk (scanReplace endHighlightTry fence pass1.length pass1)

/-- handleSiteUrl (src/migrator/index.js lines 305-307). -/
def handleSiteUrl (s : String) : String :=
  String.mk (scanReplace siteUrlTry [] s.data.length s.data)

/-- What the newline-collapsing regex emits for a finished run of `p` newlines: two when the run had three or more, the run itself otherwise. -/
def emitNl (p : Nat) : List Char := List.replicate (if 3 ≤ p then 2 else p) '\n'

/-- handleLineBreaks (src/migrator/index.js lines 293-295): the regex greedily collapses every maximal run of three or more newlines to exactly two and keeps shorter runs. The accumulator counts the newlines of the run currently being read. -/
def collapseNl : Nat → List Char → List Char
  | p, [] => emitNl p
  | p, c :: cs =>
    if c = '\n' then collapseNl (p + 1) cs else emitNl p ++ c :: collapseNl 0 cs

/-- handleLineBreaks over strings. -/
def handleLineBreaks (s : String) : String := String.mk (collapseNl 0 s.data)

/-- The content-transformer pipeline exactly in the order main applies it (src/migrator/index.js lines 453-465): card image, site url, author byline, liquid classes, code blocks, line breaks — everything before the image-upload pass. -/
def transformContent (post : Post) (content : String) : String :=
  handleLineBreaks (handleCodeBlocks (handleLiquidClasses (handlePostAuthors post
    (handleSiteUrl (moveCardImageToContent post content)))))

/-- Ghost trace events of a run: the loop taking up a file, the two kinds of network write, an error-free return from the publish call, and the two ledger appends. -/
inductive GEvent where
  | visited (f : String)
  | netS3 (key : String)
  | netMedium (title : String)
  | publishedOk (f : String)
  | appendedRedirect (f : String)
  | appendedCompleted (f : String)
deriving DecidableEq

/-- The payload main builds for the Medium create-post call (src/migrator/index.js lines 481-486). -/
structure MediumPost where
  title : String
  contentFormat : String
  publishedAt : String
  content : String
deriving DecidableEq

/-- External collaborators of the orchestrator, abstracted as oracles: the yaml-front-matter extractor, the Medium create-post response (an error list or a published URL), whether a local image file can be read, and the original-URL and ISO-date computations (both depend on the JavaScript Date environment). -/
structure Oracles where
  load : String → Post
  medium : String → MediumPost → Except (List String) String
  readImageOk : String → Bool
  origUrl : String → Post → String
  isoDate : String → Post → String

/-- The upload-and-replace loop inside handlePostContentImages (src/migrator/index.js lines 215-220): one upload per list entry — the list carries one entry per occurrence — and each returned URL is spliced over the first occurrence of the reference in the current content. Live mode records one object-storage put per upload and stops with `none` (the uncaught readFileSync exception) when the local image file cannot be read; dry-run mode performs no I/O at all. -/
def uploadsFold (dry : Bool) (bucket : String) (rok : String → Bool) :
    List String → String → List GEvent → Option String × List GEvent
  | [], c, evs => (some c, evs)
  | img :: rest, c, evs =>
    if dry then
      uploadsFold dry bucket rok rest (replaceFirst c img (uploadImageDry img)) evs
    else if rok (stripSiteHost img) then
      uploadsFold dry bucket rok rest (replaceFirst c img (uploadImageLive bucket img))
        (evs ++ [GEvent.netS3 (imgKey img)])
    else (none, evs)

/-- handlePostContentImages (src/migrator/index.js lines 211-222): extract, filter, then upload-and-replace. A `none` result models the TypeError url.parse throws inside the filter on an undefined reference, or a failed local image read in live mode. -/
def handlePostContentImages (dry : Bool) (bucket : String) (rok : String → Bool)
    (content : String) : Option String :=
  match filterUploadableImages (extractImageUrls content) with
  | none => none
  | some imgs => (uploadsFold dry bucket rok imgs content []).1

/-- JSON string escaping for the characters that can occur in the migrator's URLs and paths. -/
def jsonEscChar (c : Char) : List Char :=
  if c = '"' then ['\\', '"']
  else if c = '\\' then ['\\', '\\']
  else if c = '\n' then ['\\', 'n']
  else if c = '\r' then ['\\', 'r']
  else if c = '\t' then ['\\', 't']
  else [c]

/-- The redirect-ledger line main appends (src/migrator/index.js line 489): the JSON.stringify of the from/to record followed by a newline. -/
def redirectLine (src dst : String) : String :=
  String.mk ([lbrace, '"'] ++ ("from".data) ++ ['"', ':', '"'] ++ (src.data.map jsonEscChar).flatten
    ++ ['"', ',', '"'] ++ ("to".data) ++ ['"', ':', '"'] ++ (dst.data.map jsonEscChar).flatten
    ++ ['"', rbrace, '\n'])

/-- ASCII lower-casing as used on the post title. -/
def asciiLower (s : String) : String := String.mk (s.data.map Char.toLower)

/-- uploadPost in dry-run mode (src/migrator/index.js lines 345-349): a placeholder URL from the lower-cased title with only the first space replaced by a hyphen. -/
def uploadPostDryUrl (title : String) : String :=
  "http://localhost/post/" ++ replaceFirst (asciiLower title) " " "-"

/-- Outcome of one loop-body iteration for a file: skipped as unpublished; processed with the two ledger lines to append and the events emitted; process.exit(1) out of handleMediumErrors; or an uncaught exception. -/
inductive StepOut where
  | skip
  | done (redirectLn completedLn : String) (evs : List GEvent)
  | exitRun (evs : List GEvent)
  | crash (evs : List GEvent)
deriving DecidableEq

/-- One iteration of the orchestrator loop body (src/migrator/index.js lines 444-493) on a single file: load, skip when the published flag is present and false, transform, image pass, publish. In dry-run mode uploadPost returns the placeholder with no network call; otherwise the create-post request is sent and a response carrying an errors array makes handleMediumErrors terminate the process. The events list every network write in order, then the error-free publish. -/
def stepFile (dry : Bool) (bucket : String) (o : Oracles) (file : String) : StepOut :=
  let post := o.load file
  if post.published = some false then StepOut.skip
  else
    let content0 := transformContent post post.content
    match filterUploadableImages (extractImageUrls content0) with
    | none => StepOut.crash []
    | some imgs =>
      match uploadsFold dry bucket o.readImageOk imgs content0 [] with
      | (none, evs) => StepOut.crash evs
      | (some content1, evs) =>
        let mp : MediumPost :=
          { title := post.title, contentFormat := "markdown",
            publishedAt := o.isoDate file post, content := content1 }
        if dry then
          StepOut.done (redirectLine (o.origUrl file post) (uploadPostDryUrl post.title))
            (file ++ "\n") (evs ++ [GEvent.publishedOk file])
        else
          match o.medium file mp with
          | Except.error _ => StepOut.exitRun (evs ++ [GEvent.netMedium mp.title])
          | Except.ok u =>
            StepOut.done (redirectLine (o.origUrl file post) u) (file ++ "\n")
              (evs ++ [GEvent.netMedium mp.title, GEvent.publishedOk file])

/-- The four ledger files the migrator touches; `none` is a missing file. -/
structure FS where
  redirects : Option String
  completed : Option String
  dryRedirects : Option String
  dryCompleted : Option String
deriving DecidableEq

/-- fs.appendFileSync on the redirect ledger of the current mode; a missing file is created. -/
def appendRedirectF (dry : Bool) (fs : FS) (line : String) : FS :=
  if dry then { fs with dryRedirects := some (fs.dryRedirects.getD "" ++ line) }
  else { fs with redirects := some (fs.redirects.getD "" ++ line) }

/-- fs.appendFileSync on the completed ledger of the current mode. -/
def appendCompletedF (dry : Bool) (fs : FS) (line : String) : FS :=
  if dry then { fs with dryCompleted := some (fs.dryCompleted.getD "" ++ line) }
  else { fs with completed := some (fs.completed.getD "" ++ line) }

/-- How a run ends: the loop exhausted its files, process.exit was called, or an exception escaped. -/
inductive RunOutcome where
  | finished
  | exited
  | crashed
deriving DecidableEq

/-- The orchestrator loop (src/migrator/index.js lines 444-493): files in order; a skip appends nothing; a processed file appends its redirect line and then its completed line immediately after the publish returned; a platform error list terminates the process at once and an uncaught exception stops the run, in both cases leaving the ledgers exactly as they were before the failing file. -/
def runLoop (dry : Bool) (bucket : String) (o : Oracles) :
    List String → FS → RunOutcome × FS × List GEvent
  | [], fs => (RunOutcome.finished, fs, [])
  | f :: rest, fs =>
    match stepFile dry bucket o f with
    | StepOut.skip =>
      let r := runLoop dry bucket o rest fs
      (r.1, r.2.1, GEvent.visited f :: r.2.2)
    | StepOut.done rl cl evs =>
      let fs2 := appendCompletedF dry (appendRedirectF dry fs rl) cl
      let r := runLoop dry bucket o rest fs2
      (r.1, r.2.1,
        GEvent.visited f :: (evs ++ GEvent.appendedRedirect f :: GEvent.appendedCompleted f :: r.2.2))
    | StepOut.exitRun evs => (RunOutcome.exited, fs, GEvent.visited f :: evs)
    | StepOut.crash evs => (RunOutcome.crashed, fs, GEvent.visited f :: evs)

/-- Accumulator loop for `splitNl`: collect the current piece in reverse. -/
def splitNlAux : List Char → List Char → List String
  | acc, [] => [String.mk acc.reverse]
  | acc, c :: cs =>
    if c = '\n' then String.mk acc.reverse :: splitNlAux [] cs else splitNlAux (c :: acc) cs

/-- JavaScript String.prototype.split with the newline separator, as the ledger loader uses it: pieces between newlines, with an empty trailing piece after a final newline and a single empty piece for the empty string. -/
def splitNl (s : String) : List String := splitNlAux [] s.data

/-- getPostsFilesToProcess (src/migrator/index.js lines 386-400): under the dry-run pattern override the glob results for the pattern are returned with no ledger filtering at all; otherwise the completed-ledger content (a missing file reads as nothing completed) is split on newlines, candidates already listed are dropped, and only the first five of the survivors are kept by the trailing slice. Glob results are parameters since the file tree is external. -/
def getPostsFilesToProcess (patternFiles : Option (List String)) (ledger : Option String)
    (candidates : List String) : List String :=
  match patternFiles with
  | some fs => fs
  | none =>
    let completed := match ledger with
      | some done => splitNl done
      | none => []
    (candidates.filter (fun f => !(completed.contains f))).take 5

/-- The ledger state after main's initialization block (src/migrator/index.js lines 420-439): a dry run writes the disposable ledger files, seeding each from the live one (a missing live file seeds an empty string); a live run touches nothing. -/
def initFS (dry : Bool) (fs0 : FS) : FS :=
  if dry then
    { fs0 with dryRedirects := some (fs0.redirects.getD ""),
               dryCompleted := some (fs0.completed.getD "") }
  else fs0

/-- The file list main iterates (src/migrator/index.js line 441): getPostsFilesToProcess reading the completed ledger of the current mode, with the pattern override only available to dry runs. -/
def mainFiles (dry : Bool) (patternFiles : Option (List String)) (candidates : List String)
    (fs0 : FS) : List String :=
  getPostsFilesToProcess (if dry then patternFiles else none)
    (if dry then (initFS dry fs0).dryCompleted else (initFS dry fs0).completed) candidates

/-- main (src/migrator/index.js lines 406-505) as a migration run; the one-shot -p publication-id mode and the startup credential checks are outside every claim and not modelled. A dry run seeds the disposable ledger files from the live ones, reads the completed set through the disposable copy, and only when the loop reaches its end dumps and unlinks the disposable files; a live run uses the live ledgers directly. Returns the outcome, the final ledger state and the event trace. -/
def mainRun (dry : Bool) (patternFiles : Option (List String)) (candidates : List String)
    (bucket : String) (o : Oracles) (fs0 : FS) : RunOutcome × FS × List GEvent :=
  let r := runLoop dry bucket o (mainFiles dry patternFiles candidates fs0) (initFS dry fs0)
  match r.1 with
  | RunOutcome.finished =>
    if dry then (r.1, { r.2.1 with dryRedirects := none, dryCompleted := none }, r.2.2)
    else r
  | _ => r

/-- Whether an event is a network write. -/
def isNetEv : GEvent → Bool
  | GEvent.netS3 _ => true
  | GEvent.netMedium _ => true
  | _ => false

/-- Whether an event takes part in the completion-ledger alignment check. -/
def isLedgerEv : GEvent → Bool
  | GEvent.publishedOk _ => true
  | GEvent.appendedCompleted _ => true
  | _ => false

/-- Scan a trace keeping the queue of error-free publishes not yet matched by a completion append: every completion append must consume the oldest pending publish of the same path. A true result means no completion-ledger append ever precedes the successful publish of its path. -/
def alignedB : List String → List GEvent → Bool
  | _, [] => true
  | pend, e :: t =>
    match e with
    | GEvent.publishedOk f => alignedB (pend ++ [f]) t
    | GEvent.appendedCompleted f =>
      (match pend with
       | [] => false
       | g :: pend2 => g == f && alignedB pend2 t)
    | _ => alignedB pend t

/-- Whether a loop-body outcome terminates the run. -/
def stepStops : StepOut → Bool
  | StepOut.exitRun _ => true
  | StepOut.crash _ => true
  | _ => false

/-- Newline-run soundness of a character list: scanning with the count of newlines already read in the current run, no run ever reaches three. -/
def okRun : Nat → List Char → Bool
  | _, [] => true
  | p, c :: cs => if c = '\n' then decide (p + 1 ≤ 2) && okRun (p + 1) cs else okRun 0 cs

/-- The keep-condition of the resolver as the specification words it: a reference with no host component, or one whose host is the site's own canonical domain. Written for comparison with the predicate inside `filterUploadableImages`. -/
def specUploadable (u : String) : Bool :=
  hostFalsy (urlHostname u) || urlHostname u == some "developmentseed.org"

/-- The post of the specification's round-trip example: author Jane, card image /img/a.jpg, body Hello. -/
def janePost : Post :=
  { author := some "Jane", cardUrl := some "/img/a.jpg", title := "t", content := "Hello" }

/-- A body referencing the same bare relative image twice. -/
def dupBareContent : String := "![](a.jpg)\n![](a.jpg)"

/-- A body referencing the same site-absolute image twice. -/
def dupRootedContent : String := "![](/img/a.jpg)\n![](/img/a.jpg)"

/-- A body with an HTML img reference positioned before a markdown image reference. -/
def mixedBody : String := "<img src=\"h.png\"> and ![](m.png)"

/-- An image-read oracle for which every local file exists. -/
def rokAll : String → Bool := fun _ => true

/-- A concrete happy-path oracle set: every post loads with a plain body, the platform accepts every post, and the environment-dependent pieces are constant. -/
def oracleA : Oracles :=
  { load := fun _ => { title := "A Title", content := "Hi" },
    medium := fun _ _ => Except.ok "https://medium.example/p",
    readImageOk := rokAll,
    origUrl := fun f _ => "https://developmentseed.org/blog/" ++ f,
    isoDate := fun _ _ => "2018-01-01T00:00:00.000Z" }

/-- An oracle set whose platform response carries an errors array exactly for the file f2. -/
def oracleB : Oracles :=
  { load := fun f => { title := "T " ++ f, content := "Hi" },
    medium := fun f _ =>
      if f = "f2" then Except.error ["Publication not found."] else Except.ok ("ok-" ++ f),
    readImageOk := rokAll,
    origUrl := fun f _ => "https://developmentseed.org/blog/" ++ f,
    isoDate := fun _ _ => "2018-01-01T00:00:00.000Z" }

/-- A ledger state whose completed file already lists posts/a.md. -/
def fsLedgerA : FS :=
  { redirects := none, completed := some "posts/a.md\n", dryRedirects := none,
    dryCompleted := none }

theorem okRun_replicate (k : Nat) (hk : k ≤ 2) :
    okRun 0 (List.replicate k '\n') = true := by
  interval_cases k <;> decide

theorem okRun_emit (p : Nat) : okRun 0 (emitNl p) = true := by
  unfold emitNl
  rcases Nat.lt_or_ge p 3 with h | h
  · rw [if_neg (by omega)]
    exact okRun_replicate p (by omega)
  · rw [if_pos (by omega)]
    exact okRun_replicate 2 (by omega)

theorem okRun_prepend (k : Nat) (hk : k ≤ 2) (c : Char) (hc : ¬ c = '\n') (rest : List Char)
    (h : okRun 0 rest = true) :
    okRun 0 (List.replicate k '\n' ++ c :: rest) = true := by
  interval_cases k <;> simp [okRun, List.replicate, hc, h]

/-- The output of the newline-collapsing pass never contains a run of three newlines. -/
theorem okRun_collapseNl (l : List Char) : ∀ p : Nat, okRun 0 (collapseNl p l) = true := by
  induction l with
  | nil => intro p; exact okRun_emit p
  | cons c cs ih =>
    intro p
    by_cases hc : c = '\n'
    · subst hc
      simpa only [collapseNl, if_pos rfl] using ih (p + 1)
    · simp only [collapseNl, if_neg hc]
      rcases Nat.lt_or_ge p 3 with h | h
      · rw [emitNl, if_neg (by omega)]
        exact okRun_prepend p (by omega) c hc _ (ih 0)
      · rw [emitNl, if_pos (by omega)]
        exact okRun_prepend 2 (by omega) c hc _ (ih 0)

/-- On input whose newline runs are already short the collapsing pass is the identity (stated with the pending-run accumulator made explicit). -/
theorem collapseNl_clean (l : List Char) : ∀ p : Nat, p ≤ 2 → okRun p l = true →
    collapseNl p l = List.replicate p '\n' ++ l := by
  induction l with
  | nil =>
    intro p hp _
    simp [collapseNl, emitNl, if_neg (show ¬ 3 ≤ p by omega)]
  | cons c cs ih =>
    intro p hp hok
    by_cases hc : c = '\n'
    · subst hc
      simp only [okRun, if_pos rfl, ite_true, Bool.and_eq_true, decide_eq_true_eq] at hok
      simp only [collapseNl, if_pos rfl]
      rw [ih (p + 1) hok.1 hok.2, List.replicate_succ']
      simp
    · simp only [okRun, if_neg hc] at hok
      simp only [collapseNl, if_neg hc]
      rw [ih 0 (by omega) hok, emitNl, if_neg (show ¬ 3 ≤ p by omega)]
      simp

/-- Applying the newline-collapsing pass twice equals applying it once. -/
theorem collapseNl_idem (l : List Char) :
    collapseNl 0 (collapseNl 0 l) = collapseNl 0 l := by
  simpa using collapseNl_clean (collapseNl 0 l) 0 (by omega) (okRun_collapseNl l 0)

/-- The resolver filter over genuine strings succeeds and agrees with the specification-worded predicate, elementwise and in order. -/
theorem filterUploadable_map_some (urls : List String) :
    filterUploadableImages (urls.map some) = some (urls.filter specUploadable) := by
  induction urls with
  | nil => rfl
  | cons u rest ih =>
    simp only [List.map_cons, filterUploadableImages, ih, List.filter_cons]
    rfl

/-- C1: getPostsFilesToProcess does not return every pending candidate — with no ledger file and six candidates all six survive the completed-set filter, yet the trailing slice keeps only the first five, against both the claim and the function's own documentation. -/
theorem pending_files_slice_eval :
    getPostsFilesToProcess none none ["p1", "p2", "p3", "p4", "p5", "p6"] =
      ["p1", "p2", "p3", "p4", "p5"] ∧
    getPostsFilesToProcess none none ["p1", "p2", "p3", "p4", "p5", "p6"] ≠
      ["p1", "p2", "p3", "p4", "p5", "p6"] := by
  exact ⟨by decide, by decide⟩

/-- C4 counterexample: on the specification's round-trip post the pipeline output does not begin with the claimed card-image-then-byline text. -/
theorem transform_order_cex :
    (litMatch (("![](/img/a.jpg)\n\nBy: Jane\n\nHello").data)
      (transformContent janePost "Hello").data).isSome = false := by
  decide

/-- C4 (amended): the byline stage runs after card promotion and prepends in front of it, so the example post transforms to content beginning with the byline followed by the card image: exactly By: Jane, blank line, the card image, blank line, Hello. -/
theorem transform_byline_first :
    transformContent janePost "Hello" = "By: Jane\n\n![](/img/a.jpg)\n\nHello" := by
  decide

/-- C5 counterexample: with the same bare reference occurring twice, the image pass does not leave every original occurrence replaced by its uploaded URL. -/
theorem image_replace_overlap_cex :
    handlePostContentImages true "bkt" rokAll dupBareContent ≠
      some "![](http://localhost/test/images/a.jpg)\n![](http://localhost/test/images/a.jpg)" := by
  decide

/-- C5 (amended): the pass uploads once per occurrence (the filtered list carries one entry per occurrence), but each replacement rewrites the first occurrence of the reference string in the current content, not a remaining original one: when the uploaded URL contains the reference (bare a.jpg) the second replacement rewrites the inside of the first insertion and the second original occurrence survives; when no uploaded URL contains the reference (rooted /img/a.jpg) every original occurrence is replaced once. -/
theorem image_replace_first_occurrence :
    filterUploadableImages (extractImageUrls dupBareContent) = some ["a.jpg", "a.jpg"] ∧
    handlePostContentImages true "bkt" rokAll dupBareContent =
      some "![](http://localhost/test/images/http://localhost/test/images/a.jpg)\n![](a.jpg)" ∧
    handlePostContentImages true "bkt" rokAll dupRootedContent =
      some "![](http://localhost/test/images/a.jpg)\n![](http://localhost/test/images/a.jpg)" := by
  exact ⟨by decide, by decide, by decide⟩

/-- C6 counterexample: the extractor does not interleave the two syntaxes by document position — for a body whose HTML img precedes its markdown image the result is not in order of first appearance. -/
theorem extract_interleave_cex :
    extractImageUrls mixedBody ≠ [some "h.png", some "m.png"] := by
  decide

/-- C6 (amended): extractImageUrls returns all markdown-image matches in scan order followed by all HTML img matches in scan order (the two syntaxes are concatenated, not interleaved), duplicates included once per occurrence. -/
theorem extract_md_then_html :
    extractImageUrls mixedBody = [some "m.png", some "h.png"] ∧
    extractImageUrls "![](a.png) ![](a.png)" = [some "a.png", some "a.png"] := by
  exact ⟨by decide, by decide⟩

/-- C7: over every list of URL strings the resolver filter keeps, in order (a sublist), exactly the elements whose parsed host is absent or falsy — bare relative and site-absolute paths — or equal to the site's own canonical domain, dropping every element whose host is a different external domain; also evaluated on a concrete mixed list. -/
theorem filter_uploadable_characterization :
    (∀ urls : List String, ∃ kept, filterUploadableImages (urls.map some) = some kept ∧
      kept.Sublist urls ∧
      (∀ u, u ∈ kept ↔ u ∈ urls ∧
        (hostFalsy (urlHostname u) = true ∨ urlHostname u = some "developmentseed.org"))) ∧
    filterUploadableImages [some "img/a.png", some "/img/a.png",
        some "https://developmentseed.org/x.png", some "https://cdn.example.com/a.png"] =
      some ["img/a.png", "/img/a.png", "https://developmentseed.org/x.png"] := by
  constructor
  · intro urls
    refine ⟨urls.filter specUploadable, filterUploadable_map_some urls,
      List.filter_sublist _, ?_⟩
    intro u
    rw [List.mem_filter]
    constructor
    · rintro ⟨hu, hs⟩
      refine ⟨hu, ?_⟩
      simpa [specUploadable, Bool.or_eq_true, beq_iff_eq] using hs
    · rintro ⟨hu, hs⟩
      refine ⟨hu, ?_⟩
      simpa [specUploadable, Bool.or_eq_true, beq_iff_eq] using hs
  · decide

/-- C8 counterexample: the author-byline stage is not idempotent — applied twice to the example post it prepends two bylines. -/
theorem stage_idempotence_cex :
    handlePostAuthors janePost (handlePostAuthors janePost "Hello") ≠
      handlePostAuthors janePost "Hello" := by
  decide

/-- C8 (amended): the newline-collapsing stage is idempotent on every content, but the prepending stages are not idempotent when their front-matter field is present — card-image promotion applied twice prepends the image twice. -/
theorem line_breaks_idem_card_not :
    (∀ s : String, handleLineBreaks (handleLineBreaks s) = handleLineBreaks s) ∧
    moveCardImageToContent janePost (moveCardImageToContent janePost "Hello") ≠
      moveCardImageToContent janePost "Hello" := by
  constructor
  · intro s
    exact congrArg String.mk (collapseNl_idem s.data)
  · decide

/-- C10: a body holding the empty markdown image reference makes getMatches push undefined (both capture-group alternatives are falsy), and feeding the result to the filter makes url.parse throw — modelled by the none result — instead of classifying the reference. -/
theorem empty_image_ref_undefined :
    extractImageUrls "![]()" = [none] ∧
    filterUploadableImages (extractImageUrls "![]()") = none := by
  exact ⟨by decide, by decide⟩

theorem isLedgerEv_of_net (e : GEvent) (h : isNetEv e = true) : isLedgerEv e = false := by
  cases e <;> simp_all [isNetEv, isLedgerEv]

theorem alignedB_cons_neutral (e : GEvent) (he : isLedgerEv e = false) (pend : List String)
    (t : List GEvent) : alignedB pend (e :: t) = alignedB pend t := by
  cases e <;> simp_all [isLedgerEv, alignedB]

theorem alignedB_neutral_append (ne : List GEvent) (h : ∀ e ∈ ne, isLedgerEv e = false) :
    ∀ (pend : List String) (t : List GEvent), alignedB pend (ne ++ t) = alignedB pend t := by
  induction ne with
  | nil => intro pend t; rfl
  | cons e rest ih =>
    intro pend t
    rw [List.cons_append, alignedB_cons_neutral e (h e (by simp)) pend,
      ih (fun x hx => h x (by simp [hx])) pend t]

theorem alignedB_neutral_all (ne : List GEvent) (h : ∀ e ∈ ne, isLedgerEv e = false)
    (pend : List String) : alignedB pend ne = true := by
  have h2 := alignedB_neutral_append ne h pend []
  rw [List.append_nil] at h2
  rw [h2]
  rfl

/-- The image-upload loop only appends object-storage events to the trace it was given. -/
theorem uploadsFold_trace (dry : Bool) (bucket : String) (rok : String → Bool)
    (imgs : List String) : ∀ (c : String) (evs : List GEvent),
    ∃ extra, (uploadsFold dry bucket rok imgs c evs).2 = evs ++ extra ∧
      ∀ e ∈ extra, ∃ k, e = GEvent.netS3 k := by
  induction imgs with
  | nil =>
    intro c evs
    exact ⟨[], by simp [uploadsFold], by simp⟩
  | cons img rest ih =>
    intro c evs
    by_cases hdry : dry = true
    · subst hdry
      simpa [uploadsFold] using ih (replaceFirst c img (uploadImageDry img)) evs
    · have hd : dry = false := by simpa using hdry
      subst hd
      by_cases hrok : rok (stripSiteHost img) = true
      · obtain ⟨extra, h1, h2⟩ := ih (replaceFirst c img (uploadImageLive bucket img))
          (evs ++ [GEvent.netS3 (imgKey img)])
        refine ⟨GEvent.netS3 (imgKey img) :: extra, ?_, ?_⟩
        · simp only [uploadsFold, Bool.false_eq_true, if_false, hrok, if_true, h1,
            List.append_assoc, List.singleton_append]
        · intro e he
          rcases List.mem_cons.mp he with h | h
          · exact ⟨imgKey img, h⟩
          · exact h2 e h
      · have hr : rok (stripSiteHost img) = false := by simpa using hrok
        refine ⟨[], ?_, by simp⟩
        simp [uploadsFold, hr]

/-- In dry-run mode the upload loop performs the replacements as a pure fold, never fails, and emits no events. -/
theorem uploadsFold_dry (bucket : String) (rok : String → Bool) (imgs : List String) :
    ∀ (c : String) (evs : List GEvent),
    uploadsFold true bucket rok imgs c evs =
      (some (imgs.foldl (fun a img => replaceFirst a img (uploadImageDry img)) c), evs) := by
  induction imgs with
  | nil => intro c evs; rfl
  | cons img rest ih =>
    intro c evs
    exact ih (replaceFirst c img (uploadImageDry img)) evs

/-- Exhaustive shape analysis of one loop-body iteration: it either skips, processes the file with some network events followed by exactly one error-free publish of that file, exits with only network events, or crashes with only network events. -/
theorem stepFile_cases (dry : Bool) (bucket : String) (o : Oracles) (f : String) :
    stepFile dry bucket o f = StepOut.skip ∨
    (∃ rl cl ne, stepFile dry bucket o f = StepOut.done rl cl (ne ++ [GEvent.publishedOk f]) ∧
      ∀ e ∈ ne, isNetEv e = true) ∨
    (∃ evs, stepFile dry bucket o f = StepOut.exitRun evs ∧ ∀ e ∈ evs, isNetEv e = true) ∨
    (∃ evs, stepFile dry bucket o f = StepOut.crash evs ∧ ∀ e ∈ evs, isNetEv e = true) := by
  simp only [stepFile]
  by_cases hpub : (o.load f).published = some false
  · rw [if_pos hpub]
    left; rfl
  · rw [if_neg hpub]
    cases hfil : filterUploadableImages
        (extractImageUrls (transformContent (o.load f) (o.load f).content)) with
    | none =>
      right; right; right
      exact ⟨[], rfl, by simp⟩
    | some imgs =>
      try dsimp only
      obtain ⟨extra, hx, hnet⟩ := uploadsFold_trace dry bucket o.readImageOk imgs
        (transformContent (o.load f) (o.load f).content) []
      have hnet2 : ∀ e ∈ extra, isNetEv e = true := by
        intro e he
        obtain ⟨k, hk⟩ := hnet e he
        subst hk
        rfl
      rw [List.nil_append] at hx
      cases huf : uploadsFold dry bucket o.readImageOk imgs
          (transformContent (o.load f) (o.load f).content) [] with
      | mk oc evs0 =>
        try dsimp only
        rw [huf] at hx
        simp only at hx
        subst hx
        cases oc with
        | none =>
          right; right; right
          exact ⟨evs0, rfl, hnet2⟩
        | some content1 =>
          try dsimp only
          by_cases hdry : dry = true
          · rw [if_pos hdry]
            right; left
            exact ⟨_, _, evs0, rfl, hnet2⟩
          · rw [if_neg hdry]
            cases hmed : o.medium f (MediumPost.mk ((o.load f)).title "markdown"
                (o.isoDate f (o.load f)) content1) with
            | error msgs =>
              right; right; left
              refine ⟨_, rfl, ?_⟩
              intro e he
              rcases List.mem_append.mp he with h4 | h4
              · exact hnet2 e h4
              · rw [List.mem_singleton.mp h4]
                rfl
            | ok u =>
              right; left
              refine ⟨redirectLine (o.origUrl f (o.load f)) u, f ++ "\n",
                evs0 ++ [GEvent.netMedium ((o.load f)).title], ?_, ?_⟩
              · rw [List.append_assoc]
                rfl
              · intro e he
                rcases List.mem_append.mp he with h4 | h4
                · exact hnet2 e h4
                · rw [List.mem_singleton.mp h4]
                  rfl

/-- In dry-run mode a loop-body iteration skips, processes with the bare publish event and no network writes, or crashes before any event; it never calls process.exit. -/
theorem stepFile_dry_cases (bucket : String) (o : Oracles) (f : String) :
    stepFile true bucket o f = StepOut.skip ∨
    (∃ rl cl, stepFile true bucket o f = StepOut.done rl cl [GEvent.publishedOk f]) ∨
    stepFile true bucket o f = StepOut.crash [] := by
  simp only [stepFile]
  by_cases hpub : (o.load f).published = some false
  · rw [if_pos hpub]
    left; rfl
  · rw [if_neg hpub]
    cases hfil : filterUploadableImages
        (extractImageUrls (transformContent (o.load f) (o.load f).content)) with
    | none =>
      right; right; rfl
    | some imgs =>
      try dsimp only
      rw [uploadsFold_dry bucket o.readImageOk imgs
        (transformContent (o.load f) (o.load f).content) []]
      right; left
      exact ⟨_, _, rfl⟩

theorem alignedB_pub (pend : List String) (f : String) (t : List GEvent) :
    alignedB pend (GEvent.publishedOk f :: t) = alignedB (pend ++ [f]) t := rfl

theorem alignedB_appC (g : String) (pend2 : List String) (f : String) (t : List GEvent) :
    alignedB (g :: pend2) (GEvent.appendedCompleted f :: t) = ((g == f) && alignedB pend2 t) :=
  rfl

/-- Along every loop trace, completion-ledger appends stay aligned after the error-free publishes of their paths. -/
theorem runLoop_aligned (dry : Bool) (bucket : String) (o : Oracles) (files : List String) :
    ∀ fs : FS, alignedB [] (runLoop dry bucket o files fs).2.2 = true := by
  induction files with
  | nil => intro fs; rfl
  | cons f rest ih =>
    intro fs
    rcases stepFile_cases dry bucket o f with
      hs | ⟨rl, cl, ne, hs, hne⟩ | ⟨evs, hs, hevs⟩ | ⟨evs, hs, hevs⟩
    · simp only [runLoop, hs]
      rw [alignedB_cons_neutral (GEvent.visited f) rfl]
      exact ih fs
    · simp only [runLoop, hs]
      rw [alignedB_cons_neutral (GEvent.visited f) rfl, List.append_assoc,
        alignedB_neutral_append ne (fun e he => isLedgerEv_of_net e (hne e he)),
        List.singleton_append, alignedB_pub, List.nil_append,
        alignedB_cons_neutral (GEvent.appendedRedirect f) rfl, alignedB_appC]
      simp [ih]
    · simp only [runLoop, hs]
      rw [alignedB_cons_neutral (GEvent.visited f) rfl]
      exact alignedB_neutral_all evs (fun e he => isLedgerEv_of_net e (hevs e he)) []
    · simp only [runLoop, hs]
      rw [alignedB_cons_neutral (GEvent.visited f) rfl]
      exact alignedB_neutral_all evs (fun e he => isLedgerEv_of_net e (hevs e he)) []

/-- A file the loop takes up comes from the iterated file list. -/
theorem runLoop_visited (dry : Bool) (bucket : String) (o : Oracles) (files : List String) :
    ∀ (fs : FS) (p : String),
      GEvent.visited p ∈ (runLoop dry bucket o files fs).2.2 → p ∈ files := by
  induction files with
  | nil =>
    intro fs p h
    simp [runLoop] at h
  | cons f rest ih =>
    intro fs p h
    rcases stepFile_cases dry bucket o f with
      hs | ⟨rl, cl, ne, hs, hne⟩ | ⟨evs, hs, hevs⟩ | ⟨evs, hs, hevs⟩
    · simp only [runLoop, hs] at h
      rcases List.mem_cons.mp h with h | h
      · rw [GEvent.visited.injEq] at h
        exact h ▸ List.mem_cons_self f rest
      · exact List.mem_cons_of_mem f (ih fs p h)
    · simp only [runLoop, hs] at h
      rcases List.mem_cons.mp h with h | h
      · rw [GEvent.visited.injEq] at h
        exact h ▸ List.mem_cons_self f rest
      · rcases List.mem_append.mp h with h | h
        · rcases List.mem_append.mp h with h | h
          · have h5 := hne _ h
            simp [isNetEv] at h5
          · rw [List.mem_singleton] at h
            exact absurd h (by simp)
        · rcases List.mem_cons.mp h with h | h
          · exact absurd h (by simp)
          · rcases List.mem_cons.mp h with h | h
            · exact absurd h (by simp)
            · exact List.mem_cons_of_mem f (ih _ p h)
    · simp only [runLoop, hs] at h
      rcases List.mem_cons.mp h with h | h
      · rw [GEvent.visited.injEq] at h
        exact h ▸ List.mem_cons_self f rest
      · have h5 := hevs _ h
        simp [isNetEv] at h5
    · simp only [runLoop, hs] at h
      rcases List.mem_cons.mp h with h | h
      · rw [GEvent.visited.injEq] at h
        exact h ▸ List.mem_cons_self f rest
      · have h5 := hevs _ h
        simp [isNetEv] at h5

/-- A dry-run loop trace contains no network events. -/
theorem runLoop_dry_no_net (bucket : String) (o : Oracles) (files : List String) :
    ∀ (fs : FS) (e : GEvent),
      e ∈ (runLoop true bucket o files fs).2.2 → isNetEv e = false := by
  induction files with
  | nil =>
    intro fs e h
    simp [runLoop] at h
  | cons f rest ih =>
    intro fs e h
    rcases stepFile_dry_cases bucket o f with hs | ⟨rl, cl, hs⟩ | hs
    · simp only [runLoop, hs] at h
      rcases List.mem_cons.mp h with h | h
      · subst h; rfl
      · exact ih fs e h
    · simp only [runLoop, hs] at h
      rcases List.mem_cons.mp h with h | h
      · subst h; rfl
      · rcases List.mem_append.mp h with h | h
        · rw [List.mem_singleton.mp h]; rfl
        · rcases List.mem_cons.mp h with h | h
          · rw [h]; rfl
          · rcases List.mem_cons.mp h with h | h
            · rw [h]; rfl
            · exact ih _ e h
    · simp only [runLoop, hs] at h
      rcases List.mem_cons.mp h with h | h
      · subst h; rfl
      · simp at h

/-- A dry-run loop never touches the live ledger files. -/
theorem runLoop_dry_live_fs (bucket : String) (o : Oracles) (files : List String) :
    ∀ fs : FS, ((runLoop true bucket o files fs).2.1).redirects = fs.redirects ∧
      ((runLoop true bucket o files fs).2.1).completed = fs.completed := by
  induction files with
  | nil => intro fs; exact ⟨rfl, rfl⟩
  | cons f rest ih =>
    intro fs
    rcases stepFile_dry_cases bucket o f with hs | ⟨rl, cl, hs⟩ | hs
    · simp only [runLoop, hs]
      exact ih fs
    · simp only [runLoop, hs]
      have h2 := ih (appendCompletedF true (appendRedirectF true fs rl) cl)
      simpa [appendRedirectF, appendCompletedF] using h2
    · simp only [runLoop, hs]
      constructor <;> trivial

/-- The event trace of a run is the event trace of its loop: the dry-run cleanup only changes ledger state. -/
theorem mainRun_trace (dry : Bool) (patternFiles : Option (List String))
    (candidates : List String) (bucket : String) (o : Oracles) (fs0 : FS) :
    (mainRun dry patternFiles candidates bucket o fs0).2.2 =
      (runLoop dry bucket o (mainFiles dry patternFiles candidates fs0) (initFS dry fs0)).2.2 := by
  simp only [mainRun]
  split
  · split
    · rfl
    · rfl
  · rfl

/-- Without the dry-run pattern override the iterated files are the first five candidates not listed in the startup completion ledger. -/
theorem mainFiles_no_override (dry : Bool) (patternFiles : Option (List String))
    (candidates : List String) (fs0 : FS) (s : String)
    (hmode : dry = false ∨ patternFiles = none) (hs : fs0.completed = some s) :
    mainFiles dry patternFiles candidates fs0 =
      (candidates.filter (fun f => !((splitNl s).contains f))).take 5 := by
  rcases hmode with h | h
  · subst h
    simp [mainFiles, initFS, getPostsFilesToProcess, hs]
  · subst h
    cases dry <;> simp [mainFiles, initFS, getPostsFilesToProcess, hs]

/-- C2 counterexample: a dry run invoked with an explicit file pattern bypasses the ledger filter, so a path listed in the completion ledger at startup is taken up and republished by the orchestrator loop. -/
theorem ledger_reprocess_cex :
    "posts/a.md" ∈ splitNl "posts/a.md\n" ∧
    fsLedgerA.completed = some "posts/a.md\n" ∧
    GEvent.visited "posts/a.md" ∈
      (mainRun true (some ["posts/a.md"]) [] "bkt" oracleA fsLedgerA).2.2 ∧
    GEvent.publishedOk "posts/a.md" ∈
      (mainRun true (some ["posts/a.md"]) [] "bkt" oracleA fsLedgerA).2.2 := by
  exact ⟨by decide, rfl, by decide, by decide⟩

/-- C2 (amended): in every run each completion-ledger append follows the error-free publish of its path (the pending-publish alignment holds along the whole trace), and in runs that do not use the dry-run pattern override no path listed in the completion ledger at startup is ever taken up by the loop; the override bypasses the ledger filter. -/
theorem ledger_append_after_publish (dry : Bool) (patternFiles : Option (List String))
    (candidates : List String) (bucket : String) (o : Oracles) (fs0 : FS) :
    alignedB [] (mainRun dry patternFiles candidates bucket o fs0).2.2 = true ∧
    ((dry = false ∨ patternFiles = none) → ∀ s, fs0.completed = some s →
      ∀ p ∈ splitNl s,
        GEvent.visited p ∉ (mainRun dry patternFiles candidates bucket o fs0).2.2) := by
  constructor
  · rw [mainRun_trace]
    exact runLoop_aligned dry bucket o _ _
  · intro hmode s hs p hp hmem
    rw [mainRun_trace] at hmem
    have hin := runLoop_visited dry bucket o _ _ p hmem
    rw [mainFiles_no_override dry patternFiles candidates fs0 s hmode hs] at hin
    have hfil := List.mem_filter.mp (List.mem_of_mem_take hin)
    have hc : (splitNl s).contains p = true := by
      simp only [List.contains, List.elem_iff]
      exact hp
    rw [hc] at hfil
    simp at hfil

/-- C2 witness: the amended theorem at a concrete live run whose startup ledger lists posts/a.md. -/
theorem ledger_append_after_publish_witness :
    alignedB [] (mainRun false none ["posts/b.md"] "bkt" oracleA fsLedgerA).2.2 = true ∧
    GEvent.visited "posts/a.md" ∉
      (mainRun false none ["posts/b.md"] "bkt" oracleA fsLedgerA).2.2 := by
  have h := ledger_append_after_publish false none ["posts/b.md"] "bkt" oracleA fsLedgerA
  exact ⟨h.1, h.2 (Or.inl rfl) "posts/a.md\n" rfl "posts/a.md" (by decide)⟩

/-- C3: when the platform response for a file carries an errors array the run terminates at that file: the outcome is the process exit, the trace ends with the failing file's events so no later file is taken up, and the ledger state is exactly the state after the files before it — every record appended before the failure remains. -/
theorem medium_errors_abort (dry : Bool) (bucket : String) (o : Oracles)
    (pre : List String) (f : String) (rest : List String) (fs : FS) (evs : List GEvent)
    (hpre : ∀ g ∈ pre, stepStops (stepFile dry bucket o g) = false)
    (hf : stepFile dry bucket o f = StepOut.exitRun evs) :
    runLoop dry bucket o (pre ++ f :: rest) fs =
      (RunOutcome.exited, (runLoop dry bucket o pre fs).2.1,
        (runLoop dry bucket o pre fs).2.2 ++ GEvent.visited f :: evs) := by
  revert hpre
  induction pre generalizing fs with
  | nil =>
    intro _
    simp [List.nil_append, runLoop, hf]
  | cons g pre ih =>
    intro hpre
    have hg : stepStops (stepFile dry bucket o g) = false := hpre g (List.mem_cons_self g pre)
    have hpre2 : ∀ x ∈ pre, stepStops (stepFile dry bucket o x) = false :=
      fun x hx => hpre x (List.mem_cons_of_mem g hx)
    cases hstep : stepFile dry bucket o g with
    | skip =>
      simp only [List.cons_append, runLoop, hstep, List.append_eq]
      rw [ih fs hpre2]
    | done rl cl evs2 =>
      simp only [List.cons_append, runLoop, hstep, List.append_eq]
      rw [ih _ hpre2]
      simp
    | exitRun evs2 =>
      rw [hstep] at hg
      simp [stepStops] at hg
    | crash evs2 =>
      rw [hstep] at hg
      simp [stepStops] at hg

/-- C3 witness: the abort theorem at a concrete live run where the platform rejects the second of three files. -/
theorem medium_errors_abort_witness :
    runLoop false "bkt" oracleB (["f1"] ++ "f2" :: ["f3"]) fsLedgerA =
      (RunOutcome.exited, (runLoop false "bkt" oracleB ["f1"] fsLedgerA).2.1,
        (runLoop false "bkt" oracleB ["f1"] fsLedgerA).2.2 ++
          GEvent.visited "f2" :: [GEvent.netMedium "T f2"]) := by
  exact medium_errors_abort false "bkt" oracleB ["f1"] "f2" ["f3"] fsLedgerA
    [GEvent.netMedium "T f2"] (by decide) (by decide)

/-- C9: a dry run makes no object-storage or platform network write (its trace has no network events — uploadImage and uploadPost return their deterministic placeholders), leaves the live ledger files untouched so appends go only to the disposable files, and when the run reaches its end the disposable ledger files have been deleted. -/
theorem dry_run_frame (patternFiles : Option (List String)) (candidates : List String)
    (bucket : String) (o : Oracles) (fs0 : FS) :
    (∀ e ∈ (mainRun true patternFiles candidates bucket o fs0).2.2, isNetEv e = false) ∧
    (mainRun true patternFiles candidates bucket o fs0).2.1.redirects = fs0.redirects ∧
    (mainRun true patternFiles candidates bucket o fs0).2.1.completed = fs0.completed ∧
    ((mainRun true patternFiles candidates bucket o fs0).1 = RunOutcome.finished →
      (mainRun true patternFiles candidates bucket o fs0).2.1.dryRedirects = none ∧
      (mainRun true patternFiles candidates bucket o fs0).2.1.dryCompleted = none) := by
  have hfs := runLoop_dry_live_fs bucket o
    (mainFiles true patternFiles candidates fs0) (initFS true fs0)
  have hnet := runLoop_dry_no_net bucket o
    (mainFiles true patternFiles candidates fs0) (initFS true fs0)
  have hfs1 := hfs.1
  have hfs2 := hfs.2
  simp only [mainRun]
  cases h : (runLoop true bucket o
      (mainFiles true patternFiles candidates fs0) (initFS true fs0)).1 with
  | finished =>
    refine ⟨?_, ?_, ?_, ?_⟩
    · intro e he
      exact hnet e he
    · exact hfs1
    · exact hfs2
    · intro _
      exact ⟨rfl, rfl⟩
  | exited =>
    refine ⟨?_, ?_, ?_, ?_⟩
    · intro e he
      exact hnet e he
    · exact hfs1
    · exact hfs2
    · intro hcon
      exact absurd hcon (by simp [h])
  | crashed =>
    refine ⟨?_, ?_, ?_, ?_⟩
    · intro e he
      exact hnet e he
    · exact hfs1
    · exact hfs2
    · intro hcon
      exact absurd hcon (by simp [h])

/-- C9 witness: the dry-run frame theorem at a concrete dry run over one file; the run finishes, so the disposable ledgers end up deleted. -/
theorem dry_run_frame_witness :
    (∀ e ∈ (mainRun true none ["f1"] "bkt" oracleA fsLedgerA).2.2, isNetEv e = false) ∧
    (mainRun true none ["f1"] "bkt" oracleA fsLedgerA).2.1.redirects = fsLedgerA.redirects ∧
    (mainRun true none ["f1"] "bkt" oracleA fsLedgerA).2.1.completed = fsLedgerA.completed ∧
    ((mainRun true none ["f1"] "bkt" oracleA fsLedgerA).2.1.dryRedirects = none ∧
      (mainRun true none ["f1"] "bkt" oracleA fsLedgerA).2.1.dryCompleted = none) := by
  have h := dry_run_frame none ["f1"] "bkt" oracleA fsLedgerA
  exact ⟨h.1, h.2.1, h.2.2.1, h.2.2.2 (by decide)⟩

end Migrator
